import Mathlib

/-!
# Verification of the noodles CSI / BAM / CRAM specification claims

This file shallowly embeds the parts of the `noodles` repository that the
frozen claims talk about:

* the CSI binning index (`noodles-csi/src/index.rs`,
  `noodles-csi/src/index/reference_sequence.rs`): `max_position`,
  `resolve_interval`, `reg2bins`, `ReferenceSequence::query`, `Index::query`;
* the BAM record writer (`noodles-bam/src/writer/record.rs`): `write_record`
  together with the crate-level `validate` and the record model it uses;
* the CRAM slice header (`noodles-cram/src/data_container/slice/header.rs`):
  `alignment_end`;
* the CRAM feature iterator
  (`noodles-cram/src/record/features/with_positions.rs`): `WithPositions`.

Machine integers are modelled as `Nat`/`Int`; operations that panic in Rust
(shift overflow, arithmetic underflow, out-of-bounds indexing) are modelled
by an `Option`/error result at the corresponding point.  `io::Result` is
modelled by `Except String`.
-/

namespace Noodles

/-! ## CSI: positions, intervals, bins, chunks

`noodles_core::Position` is a 1-based position backed by `NonZeroUsize`;
CSI code converts it to and from `usize`.  In this embedding positions that
flow through the CSI query are plain `Nat`s (their positivity is carried as
hypotheses where it matters). -/

/-- One bound of a `RangeBounds<Position>` argument (`std::ops::Bound`). -/
inductive Bound where
  | included (p : Nat)
  | excluded (p : Nat)
  | unbounded
deriving DecidableEq, Repr

/-- A `RangeBounds<Position>` value: its start bound and its end bound. -/
structure Interval where
  start : Bound
  stop : Bound
deriving DecidableEq, Repr

/-- A chunk: a pair of virtual positions
(`noodles-csi/src/index/reference_sequence/bin/chunk.rs`), modelled as `Nat`
(`bgzf::VirtualPosition` is a `u64`). -/
structure Chunk where
  beg : Nat
  stop : Nat
deriving DecidableEq, Repr

/-- A CSI bin: id, `loffset`, and its chunks
(`noodles-csi/src/index/reference_sequence/bin.rs`). -/
structure Bin where
  id : Nat
  loffset : Nat
  chunks : List Chunk
deriving DecidableEq, Repr

/-- The metadata pseudo-bin payload
(`noodles-csi/src/index/reference_sequence/metadata.rs`): start and end
virtual positions, mapped and unmapped record counts. -/
structure Metadata where
  start_position : Nat
  end_position : Nat
  mapped_record_count : Nat
  unmapped_record_count : Nat
deriving DecidableEq, Repr

/-- A CSI reference sequence: its bins and optional metadata
(`noodles-csi/src/index/reference_sequence.rs`). -/
structure ReferenceSequence where
  bins : List Bin
  metadata : Option Metadata
deriving DecidableEq, Repr

/-- A CSI index (`noodles-csi/src/index.rs`). -/
structure Index where
  min_shift : Nat
  depth : Nat
  aux : List Nat
  reference_sequences : List ReferenceSequence
  n_no_coor : Option Nat
deriving DecidableEq, Repr

/-- The value `2 ^ (min_shift + 3 * depth) - 1` produced by
`ReferenceSequence::max_position` when no overflow occurs. -/
def maxPositionVal (min_shift depth : Nat) : Nat :=
  2 ^ (min_shift + 3 * depth) - 1

/-- `ReferenceSequence::max_position`
(`noodles-csi/src/index/reference_sequence.rs:25`).  The source asserts
`min_shift > 0`, computes `(1 << (min_shift + 3*depth)) - 1` on `usize`
(the shift panics when the shift amount reaches the 64-bit width), and
converts the result to a `Position` (`try_from` fails on zero).  All three
failure modes are modelled as `none`. -/
def max_position (min_shift depth : Nat) : Option Nat :=
  if min_shift = 0 then none
  else if 64 ≤ min_shift + 3 * depth then none
  else if maxPositionVal min_shift depth = 0 then none
  else some (maxPositionVal min_shift depth)

/-- `resolve_interval` (`noodles-csi/src/index.rs:158`).  Resolves the range
bounds to a closed 1-based `(start, end)` pair, checking each bound against
`max_position`; an excluded end bound of position 1 fails `Position::try_from`
on 0. -/
def resolve_interval (min_shift depth : Nat) (i : Interval) :
    Except String (Nat × Nat) :=
  let start : Nat :=
    match i.start with
    | Bound.included p => p
    | Bound.excluded p => p + 1
    | Bound.unbounded => 1
  match max_position min_shift depth with
  | none => Except.error "invalid max position"
  | some maxPos =>
    if maxPos < start then Except.error "invalid start bound"
    else
      let stopR : Except String Nat :=
        match i.stop with
        | Bound.included p => Except.ok p
        | Bound.excluded p =>
            if p - 1 = 0 then Except.error "invalid end bound" else Except.ok (p - 1)
        | Bound.unbounded => Except.ok maxPos
      match stopR with
      | Except.error e => Except.error e
      | Except.ok stop =>
        if maxPos < stop then Except.error "invalid end bound"
        else Except.ok (start, stop)

/-- One level of the `reg2bins` loop
(`noodles-csi/src/index/reference_sequence.rs:153`).  `beg` and `stop` are the
0-based closed interval ends; level `l` marks bins
`t + (beg >> s) ..= t + (stop >> s)` with `s = min_shift + 3 * (depth - l)`
and `t = (8^l - 1) / 7` accumulated as in the source (`t += 1 << (l * 3)`).
The marked ids are returned in mark order. -/
def reg2binsAux (beg stop min_shift depth : Nat) : Nat → Nat → Nat → List Nat
  | 0, _, _ => []
  | levels + 1, l, t =>
    let s := min_shift + 3 * depth - 3 * l
    let b := t + (beg >>> s)
    let e := t + (stop >>> s)
    List.range' b (e + 1 - b) ++
      reg2binsAux beg stop min_shift depth levels (l + 1) (t + (1 <<< (3 * l)))

/-- `reg2bins` (`noodles-csi/src/index/reference_sequence.rs:153`): the list
of bin ids marked for the 1-based closed interval `[start, stop]`; the loop
runs `depth + 1` times (`while l <= depth`). -/
def reg2bins (start stop min_shift depth : Nat) : List Nat :=
  reg2binsAux (start - 1) (stop - 1) min_shift depth (depth + 1) 0 0

/-- Modelled from the spec: `Bin::max_id` (the bin id bound used to size the
`reg2bins` bit vector) lives in `noodles-csi/src/index/reference_sequence/bin.rs`,
which is not part of the sources; the spec's tree shape (a `depth + 1`-level
8-ary tree) gives `(8 ^ (depth + 1) - 1) / 7` bins. -/
def Bin.max_id (depth : Nat) : Nat :=
  (8 ^ (depth + 1) - 1) / 7

/-- `ReferenceSequence::query`
(`noodles-csi/src/index/reference_sequence.rs:76`): resolve the interval,
mark the candidate bins, and keep the reference's bins whose id is marked.
Indexing the bit vector with a bin id at or above `Bin::max_id` panics in the
source; this is modelled as an error. -/
def ReferenceSequence.query (rs : ReferenceSequence) (min_shift depth : Nat)
    (i : Interval) : Except String (List Bin) :=
  match resolve_interval min_shift depth i with
  | Except.error e => Except.error e
  | Except.ok se =>
    let region := reg2bins se.1 se.2 min_shift depth
    if rs.bins.all (fun b => b.id < Bin.max_id depth) then
      Except.ok (rs.bins.filter (fun b => region.contains b.id))
    else Except.error "bin id out of bounds"

/-- `<Index as BinningIndex>::query` (`noodles-csi/src/index.rs:124`): look up
the reference sequence, query its bins, and return the concatenation of the
candidate bins' chunks (`flat_map`). -/
def Index.query (idx : Index) (reference_sequence_id : Nat) (i : Interval) :
    Except String (List Chunk) :=
  match idx.reference_sequences.get? reference_sequence_id with
  | none => Except.error "invalid reference sequence ID"
  | some rs =>
    match rs.query idx.min_shift idx.depth i with
    | Except.error e => Except.error e
    | Except.ok query_bins => Except.ok (query_bins.flatMap Bin.chunks)

/-- The result contract claimed by the spec for `Index::query`: chunks sorted
by `chunk_beg` ascending with adjacent or overlapping chunks
(`chunk_end_i ≥ chunk_beg_{i+1}`) merged, hence ordered and non-overlapping. -/
def orderedNonOverlapping : List Chunk → Bool
  | [] => true
  | [_] => true
  | c1 :: c2 :: rest =>
      decide (c1.beg ≤ c2.beg) && decide (c1.stop < c2.beg) &&
        orderedNonOverlapping (c2 :: rest)

/-- The index used to exhibit the missing sort/merge in `Index::query`: one
reference sequence whose bin 0 holds chunk `[10, 20)` and whose bin 1 holds
chunk `[5, 8)`. -/
def unsortedIndex : Index :=
  { min_shift := 14
    depth := 5
    aux := []
    reference_sequences := [⟨[⟨0, 0, [⟨10, 20⟩]⟩, ⟨1, 0, [⟨5, 8⟩]⟩], none⟩]
    n_no_coor := none }

/-- C1 counterexample: querying `unsortedIndex` over `[1, 16]` succeeds and
returns the chunks in bin order, `[10, 20)` before `[5, 8)` — not sorted by
`chunk_beg` and not merged, so the result is not an ordered, non-overlapping
list. -/
theorem c1_query_not_sorted_merged_counterexample :
    unsortedIndex.query 0 ⟨Bound.included 1, Bound.included 16⟩ =
      Except.ok [⟨10, 20⟩, ⟨5, 8⟩] ∧
    orderedNonOverlapping [⟨10, 20⟩, ⟨5, 8⟩] = false :=
  ⟨rfl, rfl⟩

/-- C1 (amended): a successful `Index::query` returns exactly the
concatenation, in the order the bins appear in the reference sequence's bin
list, of the chunks of the bins selected by `ReferenceSequence::query`; no
sorting, merging, or linear-offset filtering is performed. -/
theorem c1_query_concatenates_candidate_bin_chunks (idx : Index)
    (reference_sequence_id : Nat) (i : Interval) (rs : ReferenceSequence)
    (query_bins : List Bin)
    (h1 : idx.reference_sequences.get? reference_sequence_id = some rs)
    (h2 : rs.query idx.min_shift idx.depth i = Except.ok query_bins) :
    idx.query reference_sequence_id i =
      Except.ok (query_bins.flatMap Bin.chunks) := by
  unfold Index.query
  rw [h1]
  dsimp only
  rw [h2]

/-- C1 witness: the amended theorem applied to `unsortedIndex` at interval
`[1, 16]`, whose candidate bins are bins 0 and 1 in that order. -/
theorem c1_query_concatenates_witness :
    unsortedIndex.query 0 ⟨Bound.included 1, Bound.included 16⟩ =
      Except.ok ([⟨0, 0, [⟨10, 20⟩]⟩, ⟨1, 0, [⟨5, 8⟩]⟩].flatMap Bin.chunks) :=
  c1_query_concatenates_candidate_bin_chunks unsortedIndex 0
    ⟨Bound.included 1, Bound.included 16⟩
    ⟨[⟨0, 0, [⟨10, 20⟩]⟩, ⟨1, 0, [⟨5, 8⟩]⟩], none⟩
    [⟨0, 0, [⟨10, 20⟩]⟩, ⟨1, 0, [⟨5, 8⟩]⟩] rfl rfl

/-- C2 counterexample: with `min_shift = 14`, `depth = 5`, the in-bounds
interval `[2, 1]` has `start > end`, yet `ReferenceSequence::query` succeeds
(the source never compares `start` with `end`). -/
theorem c2_start_gt_end_succeeds_counterexample :
    ReferenceSequence.query ⟨[], none⟩ 14 5
      ⟨Bound.included 2, Bound.included 1⟩ = Except.ok [] :=
  rfl

/-- C2 (amended): for a closed interval `[start, stop]`, `resolve_interval`
checks only that `start ≤ max_position` and `stop ≤ max_position`, failing
with an invalid-input error when a bound exceeds it; `start ≤ stop` is not
validated, so an in-bounds interval with `start > stop` resolves (and the
query succeeds). -/
theorem c2_resolve_interval_checks_bounds_only (min_shift depth start stop : Nat)
    (h0 : 0 < min_shift) (h64 : min_shift + 3 * depth < 64) :
    resolve_interval min_shift depth ⟨Bound.included start, Bound.included stop⟩ =
      if maxPositionVal min_shift depth < start then
        Except.error "invalid start bound"
      else if maxPositionVal min_shift depth < stop then
        Except.error "invalid end bound"
      else Except.ok (start, stop) := by
  have hns : min_shift ≠ 0 := Nat.pos_iff_ne_zero.mp h0
  have hlt : ¬ 64 ≤ min_shift + 3 * depth := not_le.mpr h64
  have hmv : maxPositionVal min_shift depth ≠ 0 := by
    have h2 : 2 ^ 1 ≤ 2 ^ (min_shift + 3 * depth) :=
      Nat.pow_le_pow_right (by norm_num) (by omega)
    simp only [maxPositionVal]
    omega
  have hmax : max_position min_shift depth = some (maxPositionVal min_shift depth) := by
    simp [max_position, hns, hlt, hmv]
  unfold resolve_interval
  rw [hmax]

/-- C2 witness: the amended theorem at `min_shift = 14`, `depth = 5`,
interval `[2, 1]`: both bounds are within `max_position = 536870911`, so the
interval resolves to `(2, 1)` even though `start > stop`. -/
theorem c2_resolve_interval_witness :
    resolve_interval 14 5 ⟨Bound.included 2, Bound.included 1⟩ =
      Except.ok (2, 1) := by
  have h := c2_resolve_interval_checks_bounds_only 14 5 2 1 (by decide) (by decide)
  rw [h]
  rfl

/-- C3: with `min_shift = 4` and `depth = 2`, `reg2bins` marks exactly the
bins `{0, 1, 9}` for `[1, 16]`, `{0, 1, 9}` for `[9, 13]`,
`{0, 1, 11, 12, 13}` for `[36, 67]`, and
`{0, 1, 2, 12, 13, 14, 15, 16, 17}` for `[49, 143]`, and no others. -/
theorem c3_reg2bins_examples :
    reg2bins 1 16 4 2 = [0, 1, 9] ∧
    reg2bins 9 13 4 2 = [0, 1, 9] ∧
    reg2bins 36 67 4 2 = [0, 1, 11, 12, 13] ∧
    reg2bins 49 143 4 2 = [0, 1, 2, 12, 13, 14, 15, 16, 17] :=
  ⟨rfl, rfl, rfl, rfl⟩

/-- C4 counterexample: at `min_shift = 14`, `depth = 30` the shift amount
`14 + 3 * 30 = 104` reaches the 64-bit width, so the source panics
(`1 << 104` overflows `usize`) instead of producing
`2 ^ 104 - 1`. -/
theorem c4_max_position_overflow_counterexample :
    max_position 14 30 ≠ some (2 ^ (14 + 3 * 30) - 1) := by
  decide

/-- C4 (amended): for every `min_shift > 0` and `depth` with
`min_shift + 3 * depth < 64` (no `usize` shift overflow),
`max_position(min_shift, depth) = 2 ^ (min_shift + 3 * depth) - 1`; in
particular `max_position(14, 5) = 536870911`. -/
theorem c4_max_position_formula (min_shift depth : Nat) (h0 : 0 < min_shift)
    (h64 : min_shift + 3 * depth < 64) :
    max_position min_shift depth = some (2 ^ (min_shift + 3 * depth) - 1) := by
  have hns : min_shift ≠ 0 := Nat.pos_iff_ne_zero.mp h0
  have hlt : ¬ 64 ≤ min_shift + 3 * depth := not_le.mpr h64
  have hmv : maxPositionVal min_shift depth ≠ 0 := by
    have h2 : 2 ^ 1 ≤ 2 ^ (min_shift + 3 * depth) :=
      Nat.pow_le_pow_right (by norm_num) (by omega)
    simp only [maxPositionVal]
    omega
  simp only [max_position, hns, hlt, hmv, if_false]
  rfl

/-- C4 witness: the amended theorem at `min_shift = 14`, `depth = 5` gives
`max_position = 536870911`. -/
theorem c4_max_position_witness : max_position 14 5 = some 536870911 := by
  have h := c4_max_position_formula 14 5 (by decide) (by decide)
  simpa using h

/-! ## BAM record writer (`noodles-bam/src/writer/record.rs`)

Bytes are modelled as `Nat` (each `< 256` in well-formed data); the output
stream is the list of bytes written so far.  `write_record` returns the
stream contents together with `none` on success or `some msg` when the
source returns an `io::Error` midway (bytes already written stay written). -/

/-- Little-endian encoding of a `u16`. -/
def u16le (n : Nat) : List Nat := [n % 256, n / 2 ^ 8 % 256]

/-- Little-endian encoding of a `u32`. -/
def u32le (n : Nat) : List Nat :=
  [n % 256, n / 2 ^ 8 % 256, n / 2 ^ 16 % 256, n / 2 ^ 24 % 256]

/-- Little-endian encoding of an `i32` (two's complement). -/
def i32le (n : Int) : List Nat := u32le (n % 2 ^ 32).toNat

namespace Bam

/-- Modelled from the spec: the BAM record (`noodles-bam/src/record.rs` is
not among the sources; fields and their defaults are fixed by §3 "BAM
record", §4.3 "Record write" and the writer tests).  `read_name` includes
its trailing NUL; `cigar` holds the raw packed `u32` ops; `sequence` holds
the 4-bit base codes; `quality_scores` and `data` hold raw bytes. -/
structure Record where
  ref_id : Int
  pos : Int
  mapq : Nat
  bin : Nat
  flag : Nat
  next_ref_id : Int
  next_pos : Int
  tlen : Int
  read_name : List Nat
  cigar : List Nat
  sequence : List Nat
  quality_scores : List Nat
  data : List Nat
deriving DecidableEq, Repr

/-- Modelled from the spec: `Record::default()` — the record "left at its
default field values" (§8 scenario 2): unmapped flag, no position, read name
`"*"` plus NUL, missing mapping quality `0xFF`, bin 4680. -/
def Record.default : Record :=
  { ref_id := -1
    pos := -1
    mapq := 255
    bin := 4680
    flag := 4
    next_ref_id := -1
    next_pos := -1
    tlen := 0
    read_name := [42, 0]
    cigar := []
    sequence := []
    quality_scores := []
    data := [] }

/-- Whether a packed CIGAR op (`(len << 4) | code`) consumes read bases:
codes `M`(0), `I`(1), `S`(4), `=`(7), `X`(8). -/
def cigarOpConsumesRead (op : Nat) : Bool :=
  op % 16 = 0 || op % 16 = 1 || op % 16 = 4 || op % 16 = 7 || op % 16 = 8

/-- The read length consumed by a packed CIGAR op list. -/
def cigarReadLength (cigar : List Nat) : Nat :=
  (cigar.map (fun op => if cigarOpConsumesRead op then op / 16 else 0)).sum

/-- Modelled from the spec: the crate-level `validate` called by
`write_record` (`noodles-bam/src/lib.rs` is not among the sources; §4.3:
"Validate before write: name ≤ 254 bytes plus NUL, `l_seq` matches
CIGAR-consumed read length (when CIGAR present), quality length is either 0
or `l_seq`"). -/
def validate (r : Record) : Except String Unit :=
  if 255 < r.read_name.length then Except.error "invalid read name length"
  else if r.cigar.length ≠ 0 ∧ cigarReadLength r.cigar ≠ r.sequence.length then
    Except.error "invalid cigar length"
  else if r.quality_scores.length ≠ 0 ∧ r.quality_scores.length ≠ r.sequence.length then
    Except.error "invalid quality scores length"
  else Except.ok ()

/-- Modelled from the spec: packing of the stored bases into sequence bytes
("two 4-bit bases per byte, high nibble first"); `Record::sequence().as_ref()`
yields these bytes. -/
def packSequence : List Nat → List Nat
  | [] => []
  | [b] => [b * 16]
  | b1 :: b2 :: rest => (b1 * 16 + b2) :: packSequence rest

/-- Modelled from the spec: `Record::block_size()`
("`block_size = total_record_bytes − 4`"): the 32 prefix bytes after
`block_size` itself plus the variable-length sections, counting `l_seq`
quality bytes when the quality field is empty (the writer emits that many
`0xFF` fill bytes). -/
def Record.block_size (r : Record) : Nat :=
  32 + r.read_name.length + 4 * r.cigar.length + (packSequence r.sequence).length +
    (if r.quality_scores.isEmpty then r.sequence.length else r.quality_scores.length) +
    r.data.length

/-- `write_record` (`noodles-bam/src/writer/record.rs:10`): validate, then
emit the fixed prefix and the variable-length sections in source order.  The
`u8`/`u16`/`u32` width conversions fail exactly where the source performs
them, after the preceding fields have already been written; the first
component is the stream contents when the call returns. -/
def write_record (r : Record) : List Nat × Option String :=
  match validate r with
  | Except.error e => ([], some e)
  | Except.ok _ =>
    if 2 ^ 32 ≤ r.block_size then ([], some "invalid block size")
    else
      let out := u32le r.block_size ++ i32le r.ref_id ++ i32le r.pos
      if 2 ^ 8 ≤ r.read_name.length then (out, some "invalid l_read_name")
      else
        let out := out ++ [r.read_name.length, r.mapq] ++ u16le r.bin
        if 2 ^ 16 ≤ r.cigar.length then (out, some "invalid n_cigar_op")
        else
          let out := out ++ u16le r.cigar.length ++ u16le r.flag
          if 2 ^ 32 ≤ r.sequence.length then (out, some "invalid l_seq")
          else
            let out := out ++ u32le r.sequence.length ++ i32le r.next_ref_id ++
              i32le r.next_pos ++ i32le r.tlen ++ r.read_name ++
              r.cigar.flatMap u32le ++ packSequence r.sequence ++
              (if r.quality_scores.isEmpty then
                List.replicate r.sequence.length 255
               else r.quality_scores) ++ r.data
            (out, none)

theorem u16le_length (n : Nat) : (u16le n).length = 2 := rfl

theorem u32le_length (n : Nat) : (u32le n).length = 4 := rfl

theorem i32le_length (n : Int) : (i32le n).length = 4 := rfl

theorem flatMap_u32le_length (l : List Nat) : (l.flatMap u32le).length = 4 * l.length := by
  induction l with
  | nil => rfl
  | cons a t ih =>
    simp only [List.flatMap_cons, List.length_append, ih, u32le_length, List.length_cons]
    omega

theorem take_drop_middle_of_append (A Q D : List Nat) (n m : Nat)
    (hA : A.length = n) (hQ : Q.length = m) :
    ((A ++ Q ++ D).drop n).take m = Q := by
  subst hA
  subst hQ
  rw [List.append_assoc, List.drop_left, List.take_left]

end Bam

/-- C5: writing exactly one record left at its default field values emits
exactly the 38-byte sequence of §8 scenario 2 (block_size 34, ref_id −1,
pos −1, l_read_name 2, mapq 0xFF, bin 0x1248 = 4680, zero CIGAR ops, flag 4,
l_seq 0, next_ref_id −1, next_pos −1, tlen 0, read name `*` plus NUL), with
no error. -/
theorem c5_write_default_record :
    Bam.write_record Bam.Record.default =
      ([0x22, 0x00, 0x00, 0x00,
        0xff, 0xff, 0xff, 0xff,
        0xff, 0xff, 0xff, 0xff,
        0x02,
        0xff,
        0x48, 0x12,
        0x00, 0x00,
        0x04, 0x00,
        0x00, 0x00, 0x00, 0x00,
        0xff, 0xff, 0xff, 0xff,
        0xff, 0xff, 0xff, 0xff,
        0x00, 0x00, 0x00, 0x00,
        0x2a, 0x00], none) :=
  rfl

/-- C6: on every successful `write_record`, the qualities position of the
encoded record (after the 36 fixed prefix bytes, the read name, the CIGAR
and the sequence bytes) holds `l_seq` bytes of `0xFF` when the record's
quality-scores field is empty, and the quality-score bytes verbatim when it
is non-empty. -/
theorem c6_write_record_qualities (r : Bam.Record) (out : List Nat)
    (h : Bam.write_record r = (out, none)) :
    (r.quality_scores = [] →
      (out.drop (36 + r.read_name.length + 4 * r.cigar.length +
          (Bam.packSequence r.sequence).length)).take r.sequence.length =
        List.replicate r.sequence.length 255) ∧
    (r.quality_scores ≠ [] →
      (out.drop (36 + r.read_name.length + 4 * r.cigar.length +
          (Bam.packSequence r.sequence).length)).take r.quality_scores.length =
        r.quality_scores) := by
  have hA : (u32le r.block_size ++ i32le r.ref_id ++ i32le r.pos ++
      [r.read_name.length, r.mapq] ++ u16le r.bin ++ u16le r.cigar.length ++
      u16le r.flag ++ u32le r.sequence.length ++ i32le r.next_ref_id ++
      i32le r.next_pos ++ i32le r.tlen ++ r.read_name ++
      r.cigar.flatMap u32le ++ Bam.packSequence r.sequence).length =
      36 + r.read_name.length + 4 * r.cigar.length +
        (Bam.packSequence r.sequence).length := by
    simp only [List.length_append, Bam.u32le_length, Bam.i32le_length,
      Bam.u16le_length, List.length_cons, List.length_nil,
      Bam.flatMap_u32le_length]
    try omega
  unfold Bam.write_record at h
  cases hval : Bam.validate r with
  | error e =>
    rw [hval] at h
    simp at h
  | ok u =>
    rw [hval] at h
    dsimp only at h
    split_ifs at h with hbs hrn hnc hls hq
    · simp at h
    · simp at h
    · simp at h
    · simp at h
    · -- quality scores empty: the writer emits `l_seq` bytes of 0xFF
      rw [Prod.mk.injEq] at h
      obtain ⟨hout, -⟩ := h
      subst hout
      have hqnil : r.quality_scores = [] := by
        cases hq2 : r.quality_scores with
        | nil => rfl
        | cons a t => rw [hq2] at hq; exact absurd hq (by simp)
      constructor
      · intro _
        exact Bam.take_drop_middle_of_append _
          (List.replicate r.sequence.length 255) r.data _ _ hA
          (List.length_replicate _ _)
      · intro hne
        exact absurd hqnil hne
    · -- quality scores non-empty: the writer emits them verbatim
      rw [Prod.mk.injEq] at h
      obtain ⟨hout, -⟩ := h
      subst hout
      constructor
      · intro hnil
        rw [hnil] at hq
        exact absurd rfl hq
      · intro _
        exact Bam.take_drop_middle_of_append _ r.quality_scores r.data _ _ hA rfl

/-- C6 witness: a record with a one-base sequence and empty quality scores;
the qualities position of the output holds one `0xFF` byte. -/
theorem c6_write_record_qualities_witness :
    ([36, 0, 0, 0, 255, 255, 255, 255, 255, 255, 255, 255, 2, 255, 72, 18,
        0, 0, 4, 0, 1, 0, 0, 0, 255, 255, 255, 255, 255, 255, 255, 255,
        0, 0, 0, 0, 42, 0, 16, 255].drop 39).take 1 = List.replicate 1 255 := by
  have h := c6_write_record_qualities
    { Bam.Record.default with sequence := [1] }
    [36, 0, 0, 0, 255, 255, 255, 255, 255, 255, 255, 255, 2, 255, 72, 18,
      0, 0, 4, 0, 1, 0, 0, 0, 255, 255, 255, 255, 255, 255, 255, 255,
      0, 0, 0, 0, 42, 0, 16, 255] (by rfl)
  exact h.1 rfl

/-- A record that passes `validate` but has `2^16` CIGAR ops (each a `1D`
op, consuming no read bases, so the empty sequence is consistent): the
`n_cigar_op` width conversion fails only after the first 16 bytes have been
written. -/
def manyCigarOpsRecord : Bam.Record :=
  { Bam.Record.default with cigar := List.replicate 65536 18 }

theorem write_record_cigar_op_count_overflow (c : List Nat) (n : Nat)
    (hlen : c.length = n) (hn : 2 ^ 16 ≤ n)
    (hr : Bam.cigarReadLength c = 0) (hb : 34 + 4 * n < 2 ^ 32) :
    Bam.write_record { Bam.Record.default with cigar := c } =
      (u32le (34 + 4 * n) ++ i32le (-1) ++ i32le (-1) ++ [2, 255] ++ u16le 4680,
       some "invalid n_cigar_op") := by
  have hv : Bam.validate { Bam.Record.default with cigar := c } = Except.ok () := by
    unfold Bam.validate
    rw [hr]
    norm_num [Bam.Record.default]
  have hbs : Bam.Record.block_size { Bam.Record.default with cigar := c } =
      34 + 4 * n := by
    unfold Bam.Record.block_size
    rw [hlen]
    norm_num [Bam.Record.default, Bam.packSequence]
    try omega
  unfold Bam.write_record
  rw [hv]
  dsimp only
  rw [hbs, hlen]
  rw [if_neg (not_le.mpr hb)]
  dsimp only [Bam.Record.default]
  rw [if_neg (by norm_num : ¬ (2 ^ 8 ≤ ([42, 0] : List Nat).length)),
    if_pos hn]
  norm_num

theorem replicate_1D_cigar_read_length :
    Bam.cigarReadLength (List.replicate 65536 18) = 0 := by
  unfold Bam.cigarReadLength
  rw [List.map_replicate]
  norm_num [Bam.cigarOpConsumesRead, List.sum_replicate]

/-- C7 counterexample: `write_record` on a record with `2^16` CIGAR ops that
passes `validate` fails at the `n_cigar_op` width conversion, yet the 16
prefix bytes preceding it (block size `0x40022`, ref_id −1, pos −1,
l_read_name 2, mapq 0xFF, bin 0x1248) have already been written, so the
failed call does not leave the stream unchanged. -/
theorem c7_width_failure_writes_bytes_counterexample :
    Bam.write_record manyCigarOpsRecord =
      ([0x22, 0x00, 0x04, 0x00, 0xff, 0xff, 0xff, 0xff, 0xff, 0xff, 0xff, 0xff,
        0x02, 0xff, 0x48, 0x12], some "invalid n_cigar_op") ∧
    ([0x22, 0x00, 0x04, 0x00, 0xff, 0xff, 0xff, 0xff, 0xff, 0xff, 0xff, 0xff,
        0x02, 0xff, 0x48, 0x12] : List Nat) ≠ [] := by
  constructor
  · have h := write_record_cigar_op_count_overflow (List.replicate 65536 18)
      65536 (List.length_replicate _ _) (by norm_num)
      replicate_1D_cigar_read_length (by norm_num)
    unfold manyCigarOpsRecord
    rw [h]
    norm_num [u32le, i32le, u16le]
    decide
  · simp

/-- C7 (amended): when the crate-level `validate` rejects a record (read
name over 255 bytes with its NUL, CIGAR-consumed read length differing from
the sequence length, or a quality length neither 0 nor `l_seq`),
`write_record` fails before emitting anything and the stream is unchanged;
but width-conversion failures that `validate` does not cover — more than
`65535` CIGAR ops — occur only after the fields preceding them (16 bytes)
have been written. -/
theorem c7_validate_failure_writes_nothing (r : Bam.Record) (e : String)
    (h : Bam.validate r = Except.error e) :
    Bam.write_record r = ([], some e) := by
  unfold Bam.write_record
  rw [h]

/-- C7 witness: a default record with one stray quality score fails
validation (quality length 1, `l_seq` 0) and writes nothing. -/
theorem c7_validate_failure_writes_nothing_witness :
    Bam.write_record { Bam.Record.default with quality_scores := [1] } =
      ([], some "invalid quality scores length") :=
  c7_validate_failure_writes_nothing _ _ (by rfl)

/-! ## CRAM slice header (`noodles-cram/src/data_container/slice/header.rs`) -/

/-- A 1-based genomic position (`noodles_core::Position`, a `NonZeroUsize`). -/
abbrev Pos := { n : Nat // 0 < n }

/-- `Position::new`: `some` for a positive value, `none` for zero. -/
def Position.new (n : Nat) : Option Pos :=
  if h : 0 < n then some ⟨n, h⟩ else none

namespace Cram

/-- The CRAM slice header
(`noodles-cram/src/data_container/slice/header.rs:10`). -/
structure SliceHeader where
  reference_sequence_id : Int
  alignment_start : Option Pos
  alignment_span : Nat
  record_count : Nat
  record_counter : Int
  block_count : Nat
  block_content_ids : List Int
  embedded_reference_bases_block_content_id : Option Int
  reference_md5 : List Nat
  optional_tags : List Nat

/-- `Header::alignment_end`
(`noodles-cram/src/data_container/slice/header.rs:40`):
`alignment_start.and_then(|start| Position::new(start + alignment_span + 1))`. -/
def SliceHeader.alignment_end (h : SliceHeader) : Option Pos :=
  h.alignment_start.bind fun start =>
    Position.new (start.val + h.alignment_span + 1)

end Cram

/-- C9: `alignment_end()` is `None` exactly when `alignment_start` is
`None`; otherwise (when the `usize` sum does not overflow) it is the
position `alignment_start + alignment_span + 1` — one past the conventional
closed-interval end `alignment_start + alignment_span − 1`. -/
theorem c9_alignment_end_start_plus_span_plus_one (h : Cram.SliceHeader) :
    (h.alignment_end = none ↔ h.alignment_start = none) ∧
    (∀ s : Pos, h.alignment_start = some s →
      s.val + h.alignment_span + 1 ≤ 2 ^ 64 - 1 →
      h.alignment_end = some ⟨s.val + h.alignment_span + 1, Nat.succ_pos _⟩) := by
  cases hs : h.alignment_start with
  | none =>
    constructor
    · simp [Cram.SliceHeader.alignment_end, hs]
    · intro s heq
      exact absurd heq (by simp)
  | some s =>
    constructor
    · simp [Cram.SliceHeader.alignment_end, hs, Position.new]
    · intro t heq _
      obtain rfl : s = t := by injection heq
      simp [Cram.SliceHeader.alignment_end, hs, Position.new]

/-- The slice header used as the C9 witness: alignment start 5, span 3. -/
def c9SliceHeader : Cram.SliceHeader :=
  { reference_sequence_id := 0
    alignment_start := some ⟨5, by norm_num⟩
    alignment_span := 3
    record_count := 2
    record_counter := 0
    block_count := 1
    block_content_ids := [1]
    embedded_reference_bases_block_content_id := none
    reference_md5 := List.replicate 16 0
    optional_tags := [] }

/-- C9 witness: the theorem applied to a header with alignment start 5 and
span 3 gives alignment end 9 (= 5 + 3 + 1). -/
theorem c9_alignment_end_witness :
    c9SliceHeader.alignment_end = some ⟨5 + 3 + 1, by norm_num⟩ :=
  (c9_alignment_end_start_plus_span_plus_one c9SliceHeader).2
    ⟨5, by norm_num⟩ rfl (by decide)

/-! ## CRAM feature iterator
(`noodles-cram/src/record/features/with_positions.rs`)

Bases and quality scores are modelled as `Nat`; `Position` values as `Nat`
(1-based, positive in well-formed data).  The iterator is modelled as a
function from the remaining feature list and the two position registers to
the list of yielded items; `none` models the `usize` underflow panic when a
feature's stored read position is behind the current read position. -/

namespace Cram

/-- A CRAM record feature (`noodles-cram/src/record/feature.rs`): each
variant carries its 1-based read position and payload. -/
inductive Feature where
  | bases (position : Nat) (bases : List Nat)
  | scores (position : Nat) (scores : List Nat)
  | readBase (position : Nat) (base : Nat)
  | substitution (position : Nat) (code : Nat)
  | insertion (position : Nat) (bases : List Nat)
  | deletion (position : Nat) (len : Nat)
  | insertBase (position : Nat) (base : Nat)
  | qualityScore (position : Nat) (score : Nat)
  | referenceSkip (position : Nat) (len : Nat)
  | softClip (position : Nat) (bases : List Nat)
  | padding (position : Nat) (len : Nat)
  | hardClip (position : Nat) (len : Nat)
deriving DecidableEq, Repr

/-- `Feature::position()`: the stored 1-based read position. -/
def Feature.position : Feature → Nat
  | bases p _ => p
  | scores p _ => p
  | readBase p _ => p
  | substitution p _ => p
  | insertion p _ => p
  | deletion p _ => p
  | insertBase p _ => p
  | qualityScore p _ => p
  | referenceSkip p _ => p
  | softClip p _ => p
  | padding p _ => p
  | hardClip p _ => p

/-- The `(reference_position_delta, read_position_delta)` match of
`WithPositions::next` (`with_positions.rs:44`); `none` stands for the
`continue` arms (`Scores`, `QualityScore`). -/
def Feature.positionDeltas : Feature → Option (Nat × Nat)
  | bases _ bs => some (bs.length, bs.length)
  | scores _ _ => none
  | readBase _ _ => some (1, 1)
  | substitution _ _ => some (1, 1)
  | insertion _ bs => some (0, bs.length)
  | deletion _ len => some (len, 0)
  | insertBase _ _ => some (0, 1)
  | qualityScore _ _ => none
  | referenceSkip _ len => some (len, 0)
  | softClip _ bs => some (0, bs.length)
  | padding _ _ => some (0, 0)
  | hardClip _ _ => some (0, 0)

/-- The whole iteration of `WithPositions::next` (`with_positions.rs:40`)
over a feature list, from the given reference/read position registers:
skipped kinds recurse unchanged; otherwise both registers first advance by
`match_len` (the gap from the current read position to the feature's stored
position — a `usize` subtraction that panics, here `none`, when negative),
the pair is yielded with the feature, and the registers then advance by the
feature's deltas. -/
def withPositions : List Feature → Nat → Nat → Option (List ((Nat × Nat) × Feature))
  | [], _, _ => some []
  | f :: fs, refPos, readPos =>
    match f.positionDeltas with
    | none => withPositions fs refPos readPos
    | some d =>
      let feature_position := f.position
      if feature_position < readPos then none
      else
        let match_len := feature_position - readPos
        let reference_position := refPos + match_len
        let read_position := readPos + match_len
        (withPositions fs (reference_position + d.1) (read_position + d.2)).map
          (fun rest => (((reference_position, read_position), f) :: rest))

/-- `WithPositions::new(iter, alignment_start)` followed by draining the
iterator: the reference register starts at `alignment_start`, the read
register at `Position::MIN = 1`. -/
def withPositionsFrom (fs : List Feature) (alignment_start : Nat) :
    Option (List ((Nat × Nat) × Feature)) :=
  withPositions fs alignment_start 1

theorem withPositions_cons_step (f : Feature) (fs : List Feature)
    (refPos readPos dref dread : Nat)
    (hd : f.positionDeltas = some (dref, dread)) (hp : readPos ≤ f.position) :
    withPositions (f :: fs) refPos readPos =
      (withPositions fs (refPos + (f.position - readPos) + dref)
          (readPos + (f.position - readPos) + dread)).map
        (fun rest =>
          (((refPos + (f.position - readPos), readPos + (f.position - readPos)), f) :: rest)) := by
  conv_lhs => unfold withPositions
  rw [hd]
  dsimp only
  rw [if_neg (not_lt.mpr hp)]

theorem withPositions_never_yields_skipped (fs : List Feature) :
    ∀ refPos readPos out, withPositions fs refPos readPos = some out →
      ∀ pr ∈ out, (∀ p sc, pr.2 ≠ Feature.scores p sc) ∧
        (∀ p q, pr.2 ≠ Feature.qualityScore p q) := by
  induction fs with
  | nil =>
    intro refPos readPos out h pr hpr
    unfold withPositions at h
    obtain rfl : ([] : List ((Nat × Nat) × Feature)) = out := by injection h
    exact absurd hpr (by simp)
  | cons f t ih =>
    intro refPos readPos out h pr hpr
    unfold withPositions at h
    cases hd : f.positionDeltas with
    | none =>
      rw [hd] at h
      exact ih _ _ _ h pr hpr
    | some d =>
      rw [hd] at h
      dsimp only at h
      by_cases hlt : f.position < readPos
      · rw [if_pos hlt] at h
        exact absurd h (by simp)
      · rw [if_neg hlt] at h
        cases hrec : withPositions t (refPos + (f.position - readPos) + d.1)
            (readPos + (f.position - readPos) + d.2) with
        | none =>
          rw [hrec] at h
          exact absurd h (by simp)
        | some rest =>
          rw [hrec] at h
          obtain rfl : ((refPos + (f.position - readPos),
              readPos + (f.position - readPos)), f) :: rest = out := by
            injection h
          rcases List.mem_cons.mp hpr with hhead | htail
          · subst hhead
            constructor
            · intro p sc hf
              have hf2 : f = Feature.scores p sc := hf
              rw [hf2] at hd
              exact absurd hd (by simp [Feature.positionDeltas])
            · intro p q hf
              have hf2 : f = Feature.qualityScore p q := hf
              rw [hf2] at hd
              exact absurd hd (by simp [Feature.positionDeltas])
          · exact ih _ _ _ hrec pr htail

end Cram

/-- C10: in `WithPositions`, `Scores` and `QualityScore` features are
skipped — never yielded and never moving the position registers — and every
other feature is yielded paired with the positions obtained by first
advancing both registers by the gap between the feature's stored read
position and the current read position, the registers then advancing by the
kind's deltas: `Bases` by `(len, len)`, `ReadBase` and `Substitution` by
`(1, 1)`, `Insertion` and `SoftClip` by `(0, bases length)`, `InsertBase`
by `(0, 1)`, `Deletion` and `ReferenceSkip` by `(len, 0)`, `Padding` and
`HardClip` by `(0, 0)`. -/
theorem c10_with_positions_spec :
    (∀ fs refPos readPos p sc,
      Cram.withPositions (Cram.Feature.scores p sc :: fs) refPos readPos =
        Cram.withPositions fs refPos readPos) ∧
    (∀ fs refPos readPos p q,
      Cram.withPositions (Cram.Feature.qualityScore p q :: fs) refPos readPos =
        Cram.withPositions fs refPos readPos) ∧
    (∀ fs refPos readPos out,
      Cram.withPositions fs refPos readPos = some out →
      ∀ pr ∈ out, (∀ p sc, pr.2 ≠ Cram.Feature.scores p sc) ∧
        (∀ p q, pr.2 ≠ Cram.Feature.qualityScore p q)) ∧
    (∀ fs refPos readPos p bs, readPos ≤ p →
      Cram.withPositions (Cram.Feature.bases p bs :: fs) refPos readPos =
        (Cram.withPositions fs (refPos + (p - readPos) + bs.length)
            (readPos + (p - readPos) + bs.length)).map
          (fun rest => (((refPos + (p - readPos), readPos + (p - readPos)),
            Cram.Feature.bases p bs) :: rest))) ∧
    (∀ fs refPos readPos p b, readPos ≤ p →
      Cram.withPositions (Cram.Feature.readBase p b :: fs) refPos readPos =
        (Cram.withPositions fs (refPos + (p - readPos) + 1)
            (readPos + (p - readPos) + 1)).map
          (fun rest => (((refPos + (p - readPos), readPos + (p - readPos)),
            Cram.Feature.readBase p b) :: rest))) ∧
    (∀ fs refPos readPos p c, readPos ≤ p →
      Cram.withPositions (Cram.Feature.substitution p c :: fs) refPos readPos =
        (Cram.withPositions fs (refPos + (p - readPos) + 1)
            (readPos + (p - readPos) + 1)).map
          (fun rest => (((refPos + (p - readPos), readPos + (p - readPos)),
            Cram.Feature.substitution p c) :: rest))) ∧
    (∀ fs refPos readPos p bs, readPos ≤ p →
      Cram.withPositions (Cram.Feature.insertion p bs :: fs) refPos readPos =
        (Cram.withPositions fs (refPos + (p - readPos) + 0)
            (readPos + (p - readPos) + bs.length)).map
          (fun rest => (((refPos + (p - readPos), readPos + (p - readPos)),
            Cram.Feature.insertion p bs) :: rest))) ∧
    (∀ fs refPos readPos p len, readPos ≤ p →
      Cram.withPositions (Cram.Feature.deletion p len :: fs) refPos readPos =
        (Cram.withPositions fs (refPos + (p - readPos) + len)
            (readPos + (p - readPos) + 0)).map
          (fun rest => (((refPos + (p - readPos), readPos + (p - readPos)),
            Cram.Feature.deletion p len) :: rest))) ∧
    (∀ fs refPos readPos p b, readPos ≤ p →
      Cram.withPositions (Cram.Feature.insertBase p b :: fs) refPos readPos =
        (Cram.withPositions fs (refPos + (p - readPos) + 0)
            (readPos + (p - readPos) + 1)).map
          (fun rest => (((refPos + (p - readPos), readPos + (p - readPos)),
            Cram.Feature.insertBase p b) :: rest))) ∧
    (∀ fs refPos readPos p len, readPos ≤ p →
      Cram.withPositions (Cram.Feature.referenceSkip p len :: fs) refPos readPos =
        (Cram.withPositions fs (refPos + (p - readPos) + len)
            (readPos + (p - readPos) + 0)).map
          (fun rest => (((refPos + (p - readPos), readPos + (p - readPos)),
            Cram.Feature.referenceSkip p len) :: rest))) ∧
    (∀ fs refPos readPos p bs, readPos ≤ p →
      Cram.withPositions (Cram.Feature.softClip p bs :: fs) refPos readPos =
        (Cram.withPositions fs (refPos + (p - readPos) + 0)
            (readPos + (p - readPos) + bs.length)).map
          (fun rest => (((refPos + (p - readPos), readPos + (p - readPos)),
            Cram.Feature.softClip p bs) :: rest))) ∧
    (∀ fs refPos readPos p len, readPos ≤ p →
      Cram.withPositions (Cram.Feature.padding p len :: fs) refPos readPos =
        (Cram.withPositions fs (refPos + (p - readPos) + 0)
            (readPos + (p - readPos) + 0)).map
          (fun rest => (((refPos + (p - readPos), readPos + (p - readPos)),
            Cram.Feature.padding p len) :: rest))) ∧
    (∀ fs refPos readPos p len, readPos ≤ p →
      Cram.withPositions (Cram.Feature.hardClip p len :: fs) refPos readPos =
        (Cram.withPositions fs (refPos + (p - readPos) + 0)
            (readPos + (p - readPos) + 0)).map
          (fun rest => (((refPos + (p - readPos), readPos + (p - readPos)),
            Cram.Feature.hardClip p len) :: rest))) := by
  refine ⟨?_, ?_, ?_, ?_, ?_, ?_, ?_, ?_, ?_, ?_, ?_, ?_, ?_⟩
  · intro fs refPos readPos p sc
    rfl
  · intro fs refPos readPos p q
    rfl
  · intro fs refPos readPos out h pr hpr
    exact Cram.withPositions_never_yields_skipped fs refPos readPos out h pr hpr
  all_goals
    intro fs refPos readPos p x hp
    exact Cram.withPositions_cons_step _ fs refPos readPos _ _ rfl hp

/-- C10 witness: the source test — features `[Bases at 1 [A, C], Scores at
1 [0, 0]]` from alignment start 1 yield exactly the `Bases` feature at
positions `(1, 1)`; the `Scores` feature is skipped. -/
theorem c10_with_positions_witness :
    Cram.withPositions
        [Cram.Feature.bases 1 [1, 2], Cram.Feature.scores 1 [0, 0]] 1 1 =
      some [((1, 1), Cram.Feature.bases 1 [1, 2])] := by
  have hb := c10_with_positions_spec.2.2.2.1
    [Cram.Feature.scores 1 [0, 0]] 1 1 1 [1, 2] (by norm_num)
  have hs := c10_with_positions_spec.1 [] 3 3 1 [0, 0]
  rw [hb]
  norm_num
  rw [hs]
  rfl

end Noodles
